import Mathlib

/-!
Shallow embedding of the asset-decoding core of the quake_rs repository:
the PAK archive reader (src/resource.rs), the MDL model decoder and its
frame/skin time selectors and vertex assembler (src/model.rs), and the
keyframe animation library (src/animation.rs).

Modelling conventions:
- bytes are Nat values (each concrete byte is below 256); byte buffers are List Nat;
- Rust machine integers are Int/Nat with explicit two-complement casts
  (u32cast, u64cast, usizeCast) applied exactly where the source casts;
- f32 header fields are decoded exactly from their IEEE-754 bit pattern into
  rationals; infinities and NaN collapse to 0 in f32toQ (the separate cast
  functions handle the special cases the Rust float-to-integer casts define);
  f32 rounding of arithmetic (for example the seconds-to-microseconds product
  and the dequantisation byte * scale + origin) is modelled by exact rational
  arithmetic; no claim below depends on a rounded float value;
- Duration is a Nat of microseconds (the source constructs durations with
  Duration::from_micros); asMillis is the integer division by 1000 performed
  by Duration::as_millis;
- fallible code returns an error value; code paths that panic in Rust
  (unwrap on a failed read, u128 overflow in a debug build, unreachable,
  integer overflow, division by zero) produce the distinguished Res.panic
  value. Unsigned under- and overflow is modelled with the checked (debug)
  semantics; where the release wrapping semantics would differ it also ends
  in a panic (the unreachable branch) on every input used below;
- strings (asset names, frame names) are kept as raw byte lists; the lossy
  UTF-8 conversion of the source is not modelled (it is injective on the
  ASCII names all statements below use).
-/

set_option maxRecDepth 100000

/-- Two-complement interpretation of 4 little-endian bytes as an i32. -/
def leNat (l : List Nat) : Nat :=
  l.foldr (fun b acc => b + 256 * acc) 0

/-- Interpretation of a 4-byte little-endian slice as a signed 32-bit value. -/
def i32ofLe (l : List Nat) : Int :=
  let n := leNat l
  if n < 2 ^ 31 then (n : Int) else (n : Int) - 2 ^ 32

/-- Rust cast i32 -> u32 (two-complement reinterpretation). -/
def u32cast (v : Int) : Nat := (v % 2 ^ 32).toNat

/-- Rust cast i32 -> u64 (sign extension, two-complement reinterpretation). -/
def u64cast (v : Int) : Nat := (v % 2 ^ 64).toNat

/-- Rust cast i32 -> usize on a 64-bit target. -/
def usizeCast (v : Int) : Nat := (v % 2 ^ 64).toNat

/-- Exact rational value of an IEEE-754 single-precision bit pattern.
Infinities and NaN (exponent 255) collapse to 0 here; every consumer of a
special value goes through the cast functions below, which branch on the
exponent before using this value. -/
def f32toQ (b : Nat) : ℚ :=
  let s : Nat := b / 2 ^ 31 % 2
  let e : Nat := b / 2 ^ 23 % 256
  let f : Nat := b % 2 ^ 23
  let mag : ℚ :=
    if e = 0 then (f : ℚ) / 2 ^ 149
    else if e = 255 then 0
    else ((2 ^ 23 + f : Nat) : ℚ) * (2 ^ e : Nat) / 2 ^ 150
  if s = 1 then -mag else mag

/-- Rust saturating cast f32 -> usize (negative values and NaN give 0,
positive infinity gives usize::MAX, finite values truncate toward zero and
clamp at usize::MAX). -/
def f32AsUsize (b : Nat) : Nat :=
  let e := b / 2 ^ 23 % 256
  if b / 2 ^ 31 % 2 = 1 then 0
  else if e = 255 then (if b % 2 ^ 23 = 0 then 2 ^ 64 - 1 else 0)
  else min (Int.toNat ⌊f32toQ b⌋) (2 ^ 64 - 1)

/-- Duration::from_micros((secs * 1_000_000.0) as u64) applied to an f32 bit
pattern holding a number of seconds: the resulting number of microseconds.
The f32 rounding of the product is modelled as the exact product. -/
def f32SecsToMicros (b : Nat) : Nat :=
  let e := b / 2 ^ 23 % 256
  if b / 2 ^ 31 % 2 = 1 then 0
  else if e = 255 then (if b % 2 ^ 23 = 0 then 2 ^ 64 - 1 else 0)
  else min (Int.toNat ⌊f32toQ b * 1000000⌋) (2 ^ 64 - 1)

/-- Duration::as_millis of a duration held as microseconds. -/
def asMillis (micros : Nat) : Nat := micros / 1000

/-- Error kinds of the std::io errors the source constructs or propagates.
The spec taxonomy maps BadSignature, UnsupportedVersion, MalformedRecord and
UnknownVariant to invalidData (the source uses ErrorKind::InvalidData for
all of them), NotFound to notFound, and short reads to unexpectedEof. -/
inductive ErrKind where
  | invalidData
  | notFound
  | unexpectedEof
  deriving DecidableEq, Repr

/-- Result of running a piece of fallible Rust code: a value, a typed error
returned to the caller, or a panic (unwrap failure, arithmetic overflow in a
debug build, unreachable, division by zero). -/
inductive Res (α : Type) where
  | ok (a : α)
  | err (e : ErrKind)
  | panic
  deriving DecidableEq, Repr

/-- Reader state of a byteorder Cursor over an owned byte buffer. -/
structure Rdr where
  data : List Nat
  pos : Nat
  deriving DecidableEq, Repr

/-- State-threading monad for the deserializers: a reader transition that can
return a typed error or panic. -/
def M (α : Type) : Type := Rdr → Res (α × Rdr)

def M.pure {α : Type} (a : α) : M α := fun r => Res.ok (a, r)

def M.bind {α β : Type} (x : M α) (f : α → M β) : M β := fun r =>
  match x r with
  | Res.ok (a, r2) => f a r2
  | Res.err e => Res.err e
  | Res.panic => Res.panic

instance : Monad M where
  pure := M.pure
  bind := M.bind

/-- Return a typed error (the `?` propagation path of the source). -/
def failM {α : Type} (e : ErrKind) : M α := fun _ => Res.err e

/-- Panic (unwrap on an error, unreachable, overflow). -/
def panicM {α : Type} : M α := fun _ => Res.panic

/-- Rust unwrap(): turn a typed error of the action into a panic. -/
def unwrapM {α : Type} (x : M α) : M α := fun r =>
  match x r with
  | Res.err _ => Res.panic
  | y => y

/-- byteorder read_u8: one byte or UnexpectedEof. -/
def readU8M : M Nat := fun r =>
  match r.data.get? r.pos with
  | some b => Res.ok (b, ⟨r.data, r.pos + 1⟩)
  | none => Res.err ErrKind.unexpectedEof

/-- std read_exact of n bytes: the exact slice or UnexpectedEof; reading zero
bytes always succeeds. -/
def readBytesM (n : Nat) : M (List Nat) := fun r =>
  if n = 0 then Res.ok ([], r)
  else if r.pos + n ≤ r.data.length then
    Res.ok ((r.data.drop r.pos).take n, ⟨r.data, r.pos + n⟩)
  else Res.err ErrKind.unexpectedEof

/-- byteorder read_i32 (little endian). -/
def readI32M : M Int := do
  let l ← readBytesM 4
  pure (i32ofLe l)

/-- byteorder read_f32 (little endian), kept as the raw bit pattern. -/
def readF32M : M Nat := do
  let l ← readBytesM 4
  pure (leNat l)

/-- Run an action n times and collect the results in order (the source's
counted for loops pushing into a Vec). -/
def mReplicate {α : Type} (n : Nat) (act : M α) : M (List α) :=
  match n with
  | 0 => pure []
  | n + 1 => do
    let a ← act
    let rest ← mReplicate n act
    pure (a :: rest)

/-! Embedding of src/model.rs. -/

/-- Vec3 of exact rationals standing in for cgmath Vector3 of f32. -/
def Vec3 : Type := ℚ × ℚ × ℚ

instance : DecidableEq Vec3 := by
  unfold Vec3
  infer_instance

/-- Componentwise subtraction of 3-vectors. -/
def vsub (a b : Vec3) : Vec3 :=
  (a.1 - b.1, a.2.1 - b.2.1, a.2.2 - b.2.2)

/-- cgmath Vector3 cross product. -/
def cross (a b : Vec3) : Vec3 :=
  (a.2.1 * b.2.2 - a.2.2 * b.2.1,
   a.2.2 * b.1 - a.1 * b.2.2,
   a.1 * b.2.1 - a.2.1 * b.1)

/-- Output vertex of the vertex assembler (mesh.rs Vertex1XYZ1N1UV). -/
structure Vertex1XYZ1N1UV where
  position : Vec3
  normal : Vec3
  texcoord : ℚ × ℚ
  deriving DecidableEq

/-- StaticSkin: a flat palette-index buffer (the unnamed tuple field). -/
structure StaticSkin where
  buf : List Nat
  deriving DecidableEq, Repr

/-- One timed frame of an animated skin. -/
structure AnimatedSkinFrame where
  duration : Nat
  indices : List Nat
  deriving DecidableEq, Repr

/-- AnimatedSkin: the ordered timed skin frames (the unnamed tuple field). -/
structure AnimatedSkin where
  frames : List AnimatedSkinFrame
  deriving DecidableEq, Repr

/-- Skin variants. -/
inductive Skin where
  | static (s : StaticSkin)
  | animated (s : AnimatedSkin)
  deriving DecidableEq, Repr

/-- Per-vertex skin coordinate record. -/
structure SkinCoord where
  isOnSeam : Bool
  s : Int
  t : Int
  deriving DecidableEq, Repr

/-- Triangle record: faces-front flag and three vertex indices (stored as
u32 after the cast in the source). -/
structure Triangle where
  facesFront : Bool
  indices : List Nat
  deriving DecidableEq, Repr

/-- One pose of the model: name bytes, bounds, per-vertex positions. -/
structure Frame where
  name : List Nat
  min : Vec3
  max : Vec3
  vertices : List Vec3
  deriving DecidableEq

/-- One timed subframe of an animated keyframe. -/
structure AnimatedKeyframeFrame where
  duration : Nat
  frame : Frame
  deriving DecidableEq

/-- StaticKeyframe wraps a single Frame. -/
structure StaticKeyframe where
  frame : Frame
  deriving DecidableEq

/-- AnimatedKeyframe: bounds plus ordered timed subframes. -/
structure AnimatedKeyframe where
  min : Vec3
  max : Vec3
  subframes : List AnimatedKeyframeFrame
  deriving DecidableEq

/-- Keyframe variants. -/
inductive Keyframe where
  | static (kf : StaticKeyframe)
  | animated (kf : AnimatedKeyframe)
  deriving DecidableEq

/-- The decoded model asset. -/
structure Mdl where
  skins : List Skin
  skinWidth : Nat
  skinHeight : Nat
  numVerts : Nat
  keyframes : List Keyframe
  skinCoords : List SkinCoord
  triangles : List Triangle
  deriving DecidableEq

/-- Skin::indices time selector on an animated skin: the source computes
drift = time.as_millis() - total.as_millis() in u128 and repeatedly
subtracts each frame duration, returning the frame once drift reaches
exactly 0; a u128 subtraction below zero is an overflow panic (debug
profile; the release wrapping profile falls through every comparison and
panics at the unreachable branch instead) and an exhausted loop hits
unreachable. -/
def skinSelect (frames : List AnimatedSkinFrame) (drift : Nat) : Res (List Nat) :=
  match frames with
  | [] => Res.panic
  | f :: rest =>
    let d := asMillis f.duration
    if d ≤ drift then
      if drift - d = 0 then Res.ok f.indices
      else skinSelect rest (drift - d)
    else Res.panic

/-- Skin::indices: select the pixel-index buffer for an elapsed time given
in microseconds. -/
def Skin.indices (sk : Skin) (time : Nat) : Res (List Nat) :=
  match sk with
  | Skin.static s => Res.ok s.buf
  | Skin.animated s =>
    let total := s.frames.foldl (fun acc f => acc + f.duration) 0
    if asMillis total ≤ asMillis time then
      skinSelect s.frames (asMillis time - asMillis total)
    else Res.panic

/-- Keyframe::frame time selector on an animated keyframe, with the same
drift arithmetic as the skin selector. -/
def keyframeSelect (frames : List AnimatedKeyframeFrame) (drift : Nat) : Res Frame :=
  match frames with
  | [] => Res.panic
  | f :: rest =>
    let d := asMillis f.duration
    if d ≤ drift then
      if drift - d = 0 then Res.ok f.frame
      else keyframeSelect rest (drift - d)
    else Res.panic

/-- Keyframe::frame: select the active Frame for an elapsed time given in
microseconds. -/
def Keyframe.frame (kf : Keyframe) (time : Nat) : Res Frame :=
  match kf with
  | Keyframe.static k => Res.ok k.frame
  | Keyframe.animated k =>
    let total := k.subframes.foldl (fun acc f => acc + f.duration) 0
    if asMillis total ≤ asMillis time then
      keyframeSelect k.subframes (asMillis time - asMillis total)
    else Res.panic

/-- Index of a triangle corner inside the triangle index list (the source
indexes a [u32; 3] array; decoding always produces exactly 3 entries). -/
def Triangle.idx (t : Triangle) (i : Nat) : Nat := t.indices.getD i 0

/-- The 3 output vertices the assembler produces for one triangle: corner
positions from the frame, one shared flat normal (the normalisation of the
cross product is supplied as the function nrm, standing for the external
cgmath InnerSpace::normalize), and seam-corrected texture coordinates.
Out-of-range vertex indices would panic in the source; the embedding totalises
the lookups with getD, and the claim statements concern in-range models. -/
def triVertices (nrm : Vec3 → Vec3) (m : Mdl) (frame : Frame) (t : Triangle) :
    List Vertex1XYZ1N1UV :=
  let face : Nat → Vec3 := fun i => frame.vertices.getD (t.idx i) (0, 0, 0)
  let sc : Nat → SkinCoord := fun i => m.skinCoords.getD (t.idx i) ⟨false, 0, 0⟩
  let uv : Nat → ℚ × ℚ := fun i =>
    let s : ℚ :=
      (if ¬t.facesFront ∧ (sc i).isOnSeam then
        ((sc i).s + (m.skinWidth : ℚ) / 2) + 1 / 2
      else
        (sc i).s + 1 / 2) / (m.skinWidth : ℚ)
    let tt : ℚ := ((sc i).t + 1 / 2) / (m.skinHeight : ℚ)
    (s, tt)
  let normal := nrm (cross (vsub (face 0) (face 1)) (vsub (face 2) (face 1)))
  [⟨face 0, normal, uv 0⟩, ⟨face 1, normal, uv 1⟩, ⟨face 2, normal, uv 2⟩]

/-- Mdl::vertices: the triangle-exploded vertex stream for a chosen frame. -/
def Mdl.vertices (m : Mdl) (nrm : Vec3 → Vec3) (frame : Frame) :
    List Vertex1XYZ1N1UV :=
  m.triangles.flatMap (triVertices nrm m frame)

/-- Vertex1XYZ1N1UV::read_packed_position: three quantized bytes dequantised
by byte * scale + origin (modelled exactly over the rationals). -/
def readPackedPosition (scale origin : Vec3) : M Vec3 := do
  let a ← readU8M
  let b ← readU8M
  let c ← readU8M
  pure ((a : ℚ) * scale.1 + origin.1,
        (b : ℚ) * scale.2.1 + origin.2.1,
        (c : ℚ) * scale.2.2 + origin.2.2)

/-- StaticSkin::deserialize: a flat width*height byte buffer. -/
def StaticSkin.deserialize (size : Nat) : M StaticSkin := do
  let b ← readBytesM size
  pure ⟨b⟩

/-- AnimatedSkin::deserialize: an f32 sub-count cast to usize, that many
duration floats, then that many pixel buffers; the source pairs
durations[i] with the i-th buffer, which the zip reproduces since both
lists have the same length. -/
def AnimatedSkin.deserialize (size : Nat) : M AnimatedSkin := do
  let nbits ← readF32M
  let n := f32AsUsize nbits
  let durs ← mReplicate n (do
    let b ← readF32M
    pure (f32SecsToMicros b))
  let frames ← mReplicate n (readBytesM size)
  pure ⟨(durs.zip frames).map (fun p => ⟨p.1, p.2⟩)⟩

/-- Skin::deserialize: tag 0 selects Static, 1 Animated, anything else is an
InvalidData error. -/
def Skin.deserialize (size : Nat) : M Skin := do
  let tag ← readI32M
  if tag = 0 then do
    let s ← StaticSkin.deserialize size
    pure (Skin.static s)
  else if tag = 1 then do
    let s ← AnimatedSkin.deserialize size
    pure (Skin.animated s)
  else failM ErrKind.invalidData

/-- SkinCoord::deserialize: the on-seam flag is the tag being exactly 0x20;
every other tag value decodes to false without error. -/
def SkinCoord.deserialize : M SkinCoord := do
  let tag ← readI32M
  let s ← readI32M
  let t ← readI32M
  pure ⟨decide (tag = 32), s, t⟩

/-- Triangle::deserialize: the faces-front flag is the tag being exactly 1;
every other tag value decodes to false without error; then three vertex
indices each cast i32 -> u32. -/
def Triangle.deserialize : M Triangle := do
  let tag ← readI32M
  let i0 ← readI32M
  let i1 ← readI32M
  let i2 ← readI32M
  pure ⟨decide (tag = 1), [u32cast i0, u32cast i1, u32cast i2]⟩

/-- Frame::deserialize: packed min and max bounds each followed by a padding
byte, a 16-byte name field truncated at its first NUL (the source unwraps the
position lookup, so a name field without any NUL panics), then one packed
position plus padding byte per vertex. -/
def Frame.deserialize (numVerts : Int) (scale origin : Vec3) : M Frame := do
  let mn ← readPackedPosition scale origin
  let _ ← readU8M
  let mx ← readPackedPosition scale origin
  let _ ← readU8M
  let nameBuf ← readBytesM 16
  match nameBuf.findIdx? (fun b => b == 0) with
  | none => panicM
  | some len => do
    let verts ← mReplicate numVerts.toNat (do
      let v ← readPackedPosition scale origin
      let _ ← readU8M
      pure v)
    pure ⟨nameBuf.take len, mn, mx, verts⟩

/-- AnimatedKeyframe::deserialize: an i32 sub-count cast to usize, packed
bounds with padding, the duration floats, then the subframes. -/
def AnimatedKeyframe.deserialize (numVerts : Int) (scale origin : Vec3) :
    M AnimatedKeyframe := do
  let n ← readI32M
  let mn ← readPackedPosition scale origin
  let _ ← readU8M
  let mx ← readPackedPosition scale origin
  let _ ← readU8M
  let durs ← mReplicate (usizeCast n) (do
    let b ← readF32M
    pure (f32SecsToMicros b))
  let subs ← mReplicate (usizeCast n) (Frame.deserialize numVerts scale origin)
  pure ⟨mn, mx, (durs.zip subs).map (fun p => ⟨p.1, p.2⟩)⟩

/-- Keyframe::deserialize: tag 0 selects Static, 1 Animated, anything else is
an InvalidData error. -/
def Keyframe.deserialize (numVerts : Int) (scale origin : Vec3) : M Keyframe := do
  let tag ← readI32M
  if tag = 0 then do
    let f ← Frame.deserialize numVerts scale origin
    pure (Keyframe.static ⟨f⟩)
  else if tag = 1 then do
    let kf ← AnimatedKeyframe.deserialize numVerts scale origin
    pure (Keyframe.animated kf)
  else failM ErrKind.invalidData

/-- The i32 multiplication skin_width * skin_height performed inside the skin
loop, with the debug overflow check, followed by the cast to usize. -/
def skinSize (w h : Int) : M Nat := fun r =>
  if w * h < -2147483648 ∨ 2147483648 ≤ w * h then Res.panic
  else Res.ok (usizeCast (w * h), r)

/-- Mdl::deserialize. Every header read unwraps its io result, so a buffer
truncated inside the header panics instead of returning the error; the
record loops after the header propagate errors with the question-mark
operator. -/
def Mdl.deserialize : M Mdl := do
  let ident ← unwrapM readI32M
  if ident = 0x4f504449 then do
    let version ← unwrapM readI32M
    if version = 6 then do
      let s0 ← unwrapM readF32M
      let s1 ← unwrapM readF32M
      let s2 ← unwrapM readF32M
      let o0 ← unwrapM readF32M
      let o1 ← unwrapM readF32M
      let o2 ← unwrapM readF32M
      let _boundingRadius ← unwrapM readF32M
      let _p0 ← unwrapM readF32M
      let _p1 ← unwrapM readF32M
      let _p2 ← unwrapM readF32M
      let numSkins ← unwrapM readI32M
      let skinWidth ← unwrapM readI32M
      let skinHeight ← unwrapM readI32M
      let numVerts ← unwrapM readI32M
      let numTris ← unwrapM readI32M
      let numFrames ← unwrapM readI32M
      let _syncType ← unwrapM readI32M
      let _flags ← unwrapM readI32M
      let _size ← unwrapM readF32M
      let scale : Vec3 := (f32toQ s0, f32toQ s1, f32toQ s2)
      let origin : Vec3 := (f32toQ o0, f32toQ o1, f32toQ o2)
      let skins ← mReplicate numSkins.toNat (do
        let sz ← skinSize skinWidth skinHeight
        Skin.deserialize sz)
      let skinCoords ← mReplicate numVerts.toNat SkinCoord.deserialize
      let triangles ← mReplicate numTris.toNat Triangle.deserialize
      let keyframes ← mReplicate numFrames.toNat
        (Keyframe.deserialize numVerts scale origin)
      pure ⟨skins, u32cast skinWidth, u32cast skinHeight, u32cast numVerts,
            keyframes, skinCoords, triangles⟩
    else failM ErrKind.invalidData
  else failM ErrKind.invalidData

/-! Embedding of src/animation.rs. The animation Keyframe type is distinct
from the model Keyframe; it lives in the Anim namespace. -/

namespace Anim

/-- animation.rs Keyframe: a vertex snapshot and its cumulative-duration
threshold (microseconds). -/
structure Keyframe where
  vertices : List Vertex1XYZ1N1UV
  duration : Nat
  deriving DecidableEq

/-- animation.rs Animation: the ordered keyframes of one clip. -/
structure Animation where
  keyframes : List Keyframe
  deriving DecidableEq

/-- The linear scan of Animation::find_keyframes: prev tracks the last
keyframe whose threshold is at or below the query time; the first later
keyframe becomes next and breaks the loop; if the loop never breaks, next
keeps its initial value, the first keyframe. -/
def findLoop (kfs : List Keyframe) (time : Nat) (prev next : Keyframe) :
    Keyframe × Keyframe :=
  match kfs with
  | [] => (prev, next)
  | k :: rest =>
    if asMillis k.duration ≤ asMillis time then findLoop rest time k next
    else (prev, k)

/-- Animation::find_keyframes; the source indexes keyframes[0] and is only
called on a non-empty list (animate guards), so the empty case is never
reached and returns none. -/
def findKeyframes (kfs : List Keyframe) (time : Nat) :
    Option (Keyframe × Keyframe) :=
  match kfs with
  | [] => none
  | k0 :: _ => some (findLoop kfs time k0 k0)

/-- Animation::interpolate: computes the u128 factor
(time - prev.duration) / (next.duration - prev.duration) in milliseconds,
panicking on subtraction underflow (debug) or on division by zero, then
discards it and returns the empty vertex list (the interpolation body is a
stub). -/
def interpolate (prev next : Keyframe) (time : Nat) : Res (List Vertex1XYZ1N1UV) :=
  let tm := asMillis time
  let pm := asMillis prev.duration
  let nm := asMillis next.duration
  if pm ≤ tm then
    if nm < pm then Res.panic
    else if nm - pm = 0 then Res.panic
    else Res.ok []
  else Res.panic

/-- Animation::animate: none on an empty clip, otherwise find the bracketing
keyframes and run the interpolation stub. -/
def Animation.animate (a : Animation) (time : Nat) : Res (Option (List Vertex1XYZ1N1UV)) :=
  match a.keyframes with
  | [] => Res.ok none
  | k0 :: _ =>
    match findKeyframes a.keyframes time with
    | none => Res.panic
    | some (prev, next) =>
      match interpolate prev next time with
      | Res.ok vs => Res.ok (some vs)
      | Res.err e => Res.err e
      | Res.panic =>
        match k0 with
        | _ => Res.panic

/-- KeyframeAnimationComponent: named clips and the selected clip name. -/
structure KeyframeAnimationComponent where
  animations : List (List Nat × Animation)
  currentAnimation : Option (List Nat)
  deriving DecidableEq

/-- HashMap::get on the clip table, modelled on the association list. -/
def getAnimation (l : List (List Nat × Animation)) (k : List Nat) : Option Animation :=
  (l.find? (fun p => p.1 == k)).map (fun p => p.2)

/-- KeyframeAnimationComponent::animate: no selected clip or an unknown clip
name produce no result; otherwise defer to the clip. -/
def KeyframeAnimationComponent.animate (c : KeyframeAnimationComponent)
    (time : Nat) : Res (Option (List Vertex1XYZ1N1UV)) :=
  match c.currentAnimation with
  | none => Res.ok none
  | some k =>
    match getAnimation c.animations k with
    | none => Res.ok none
    | some a => a.animate time

end Anim

/-! Embedding of src/resource.rs. -/

/-- The archive directory: name bytes mapped to the (offset, size) pair.
HashMap is modelled as an association list with at most one entry per key;
dirInsert keeps that invariant. -/
abbrev Dir : Type := List (List Nat × (Int × Int))

/-- HashMap::insert: replace the value of an existing key (last write wins),
otherwise add a new mapping. -/
def dirInsert (d : Dir) (k : List Nat) (v : Int × Int) : Dir :=
  if d.any (fun e => e.1 == k) then
    d.map (fun e => if e.1 == k then (k, v) else e)
  else d ++ [(k, v)]

/-- HashMap::get on the directory. -/
def dirLookup (d : Dir) (k : List Nat) : Option (Int × Int) :=
  (d.find? (fun e => e.1 == k)).map (fun e => e.2)

/-- A seek to absolute position p followed by read_exact of n bytes from the
backing file, returning the exact slice; a read of zero bytes always
succeeds, any other read ending past the end of the file fails. -/
def fileReadExactAt (data : List Nat) (p n : Nat) : Option (List Nat) :=
  if n = 0 then some []
  else if p + n ≤ data.length then some ((data.drop p).take n)
  else none

/-- The opened archive: backing file bytes, file cursor position, and the
directory built at open time. -/
structure Pak where
  data : List Nat
  cursor : Nat
  directory : Dir
  deriving DecidableEq

/-- The 64-byte directory record at absolute position p of the file. -/
def record (data : List Nat) (p : Nat) : List Nat :=
  (data.drop p).take 64

/-- Name extraction of Pak::open: the record truncated at the first NUL byte
anywhere in the 64-byte record; a record without any NUL gives the empty
name. -/
def entryName (buf : List Nat) : List Nat :=
  buf.take (match buf.findIdx? (fun b => b == 0) with
    | some l => l
    | none => 0)

/-- The offset field of a 64-byte directory record (bytes 56..60). -/
def entryOffset (buf : List Nat) : Int :=
  i32ofLe ((buf.drop 56).take 4)

/-- The size field of a 64-byte directory record (bytes 60..64). -/
def entrySize (buf : List Nat) : Int :=
  i32ofLe ((buf.drop 60).take 4)

/-- The directory loop of Pak::open: n times, seek to the running offset,
read a 64-byte record, insert its parsed entry, advance the offset by 64.
The i32 offset accumulator is modelled as a mathematical integer; its debug
overflow check only fires for archives past 2 GiB and is covered by the
bound hypotheses of the theorems below. -/
def readDirEntries (data : List Nat) (off : Int) (n : Nat) (dir : Dir) :
    Except ErrKind Dir :=
  match n with
  | 0 => Except.ok dir
  | n + 1 =>
    match fileReadExactAt data (u64cast off) 64 with
    | none => Except.error ErrKind.unexpectedEof
    | some buf =>
      readDirEntries data (off + 64) n
        (dirInsert dir (entryName buf) (entryOffset buf, entrySize buf))

/-- The directory offset field of the 12-byte archive header. -/
def pakDirOffset (data : List Nat) : Int :=
  i32ofLe ((data.drop 4).take 4)

/-- The entry count of the archive: the header directory byte length divided
by 64 with the truncating i32 division, clamped at zero by the loop. -/
def pakNumFiles (data : List Nat) : Nat :=
  (Int.tdiv (i32ofLe ((data.drop 8).take 4)) 64).toNat

/-- Pak::open: read and validate the 12-byte header, then build the
directory; the cursor ends after the last record read (or after the header
when there is none). -/
def Pak.open (data : List Nat) : Except ErrKind Pak :=
  match fileReadExactAt data 0 12 with
  | none => Except.error ErrKind.unexpectedEof
  | some header =>
    if header.take 4 = [80, 65, 67, 75] then
      let off := pakDirOffset data
      let n := pakNumFiles data
      match readDirEntries data off n [] with
      | Except.error e => Except.error e
      | Except.ok dir =>
        Except.ok ⟨data, if n = 0 then 12 else u64cast (off + 64 * (n - 1)) + 64, dir⟩
    else Except.error ErrKind.invalidData

/-- Pak::read: look the name up in the directory; a miss returns NotFound
and leaves the archive untouched; on a hit the source first allocates the
read buffer with a vec of size as usize zero bytes: a capacity above
isize::MAX, which the sign-extending cast produces for every negative i32
size, panics deterministically with a capacity overflow before any seek,
in debug and release builds alike; otherwise read seeks to the stored
offset (cast i32 -> u64) and reads exactly that many bytes. The cursor
after a failed read_exact is left at the seek position (std leaves it
unspecified); allocator exhaustion for feasible capacities is a
nondeterministic resource condition and is not modelled. -/
def Pak.read (p : Pak) (name : List Nat) : Res (List Nat) × Pak :=
  match dirLookup p.directory name with
  | none => (Res.err ErrKind.notFound, p)
  | some (off, size) =>
    if 2 ^ 63 ≤ usizeCast size then (Res.panic, p)
    else
      match fileReadExactAt p.data (u64cast off) (usizeCast size) with
      | none => (Res.err ErrKind.unexpectedEof, ⟨p.data, u64cast off, p.directory⟩)
      | some bytes =>
        (Res.ok bytes, ⟨p.data, u64cast off + usizeCast size, p.directory⟩)

/-! Concrete inputs used by the theorems below. -/

/-- A two-entry animated skin with durations 100 ms and 200 ms. -/
def skinTwo : Skin :=
  Skin.animated ⟨[⟨100000, [1]⟩, ⟨200000, [2]⟩]⟩

/-- A frame with no vertices used as a payload of keyframe selectors. -/
def frameA : Frame := ⟨[97], (0, 0, 0), (0, 0, 0), []⟩

/-- A second frame payload. -/
def frameB : Frame := ⟨[98], (0, 0, 0), (0, 0, 0), []⟩

/-- A two-subframe animated keyframe with durations 100 ms and 200 ms. -/
def keyframeTwo : Keyframe :=
  Keyframe.animated ⟨(0, 0, 0), (0, 0, 0), [⟨100000, frameA⟩, ⟨200000, frameB⟩]⟩

/-- A single-entry animated skin of duration 100 ms. -/
def skinOne : Skin := Skin.animated ⟨[⟨100000, [7]⟩]⟩

/-- A single-subframe animated keyframe of duration 100 ms. -/
def keyframeOne : Keyframe :=
  Keyframe.animated ⟨(0, 0, 0), (0, 0, 0), [⟨100000, frameA⟩]⟩

/-- Claim C1. The claim states that the Frame/Skin time selector implements
looping playback with phase elapsed mod period, returning entry 0 at 50 ms,
entry 1 at 250 ms and entry 0 again at 350 ms for durations 100 ms and
200 ms. The code instead computes drift = elapsed - period in unsigned
u128 arithmetic and only returns a payload when the drift minus a running
prefix of durations is exactly zero: at all three elapsed times of the
spec example (and equally for the keyframe selector) the call panics
(subtraction overflow in a debug build; the release build wraps, exhausts
the loop and hits the unreachable branch) instead of returning the claimed
entry. -/
theorem skin_time_selector_panics_on_spec_example :
    Skin.indices skinTwo 50000 = Res.panic ∧
    Skin.indices skinTwo 250000 = Res.panic ∧
    Skin.indices skinTwo 350000 = Res.panic ∧
    Keyframe.frame keyframeTwo 50000 = Res.panic ∧
    Keyframe.frame keyframeTwo 250000 = Res.panic ∧
    Keyframe.frame keyframeTwo 350000 = Res.panic := by
  decide

/-- Claim C2. The claim states the selector always returns exactly one
payload and never fails, and that a single-entry list returns entry 0 for
every elapsed time. On a single 100 ms entry at elapsed time 0 (and at
50 ms) both the skin and the keyframe selector panic: the initial u128
subtraction elapsed - total underflows, so the exhausted-list unreachable
branch is protected only by a panic that happens earlier, not by the
claimed total behaviour. The selector returns a payload only when elapsed
equals the period plus an exact cumulative prefix sum (here: 200 ms). -/
theorem skin_time_selector_panics_on_single_entry :
    Skin.indices skinOne 0 = Res.panic ∧
    Skin.indices skinOne 50000 = Res.panic ∧
    Keyframe.frame keyframeOne 0 = Res.panic ∧
    Keyframe.frame keyframeOne 50000 = Res.panic ∧
    Skin.indices skinOne 200000 = Res.ok [7] := by
  decide

/-- Claim C3. The claim states that Mdl::deserialize returns a typed
MalformedRecord/IOFailure error on every truncated or malformed buffer and
never panics. The header reads unwrap their io results, so a buffer
truncated inside the header (here: the empty buffer, and a buffer holding
only the 4 signature bytes IDPO) panics instead of returning the typed
error. -/
theorem mdl_deserialize_panics_on_truncated_header :
    Mdl.deserialize ⟨[], 0⟩ = Res.panic ∧
    Mdl.deserialize ⟨[73, 68, 80, 79], 0⟩ = Res.panic := by
  decide

/-- A concrete output vertex. -/
def vert0 : Vertex1XYZ1N1UV := ⟨(0, 0, 0), (0, 0, 0), (0, 0)⟩

/-- A two-keyframe clip whose keyframes both hold two vertices. -/
def animTwo : Anim.Animation :=
  ⟨[⟨[vert0, vert0], 100000⟩, ⟨[vert0, vert0], 200000⟩]⟩

/-- A single-keyframe clip. -/
def animSingle : Anim.Animation := ⟨[⟨[vert0, vert0], 100000⟩]⟩

/-- A component with the two-keyframe clip selected. -/
def compTwo : Anim.KeyframeAnimationComponent := ⟨[([99], animTwo)], some [99]⟩

/-- The same component with no clip selected. -/
def compNone : Anim.KeyframeAnimationComponent := ⟨[([99], animTwo)], none⟩

/-- Claim C4. The claim states that Animation::animate returns a per-vertex
snapshot linearly interpolated between the two bracketing keyframes, with a
normalized factor in the unit interval, and no result when no clip is
selected. Only the last part holds: the interpolation body is a stub, so at
time 150 ms between keyframes of two vertices each the call returns an
empty vertex list instead of a two-vertex interpolation (and the factor is
computed with u128 integer division, not a normalized fraction); on a
single-keyframe clip the bracketing pair degenerates and the factor
division panics with a division by zero. -/
theorem animation_animate_returns_empty_stub :
    Anim.KeyframeAnimationComponent.animate compTwo 150000 = Res.ok (some []) ∧
    (animTwo.keyframes.map (fun k => k.vertices.length)) = [2, 2] ∧
    Anim.Animation.animate animSingle 150000 = Res.panic ∧
    Anim.KeyframeAnimationComponent.animate compNone 150000 = Res.ok none := by
  decide

/-- Decoding four explicit little-endian bytes. -/
theorem leNat_four (b0 b1 b2 b3 : Nat) :
    leNat [b0, b1, b2, b3] = b0 + 256 * (b1 + 256 * (b2 + 256 * b3)) := by
  simp [leNat]


/-- Evaluation of monadic bind at a reader state whose first action
succeeds. -/
theorem bind_run {α β : Type} {x : M α} {a : α} {r r2 : Rdr} (f : α → M β)
    (h : x r = Res.ok (a, r2)) : (x >>= f) r = f a r2 := by
  show M.bind x f r = f a r2
  simp only [M.bind, h]

/-- Evaluation of pure at a reader state. -/
theorem pure_run {α : Type} (a : α) (r : Rdr) : (pure a : M α) r = Res.ok (a, r) := by
  rfl

/-- Successful evaluation of read_exact. -/
theorem readBytesM_run {n : Nat} {data : List Nat} {pos : Nat} (hn : n ≠ 0)
    (h : pos + n ≤ data.length) :
    readBytesM n ⟨data, pos⟩ = Res.ok ((data.drop pos).take n, ⟨data, pos + n⟩) := by
  simp [readBytesM, hn, h]

/-- Successful evaluation of a 4-byte little-endian i32 read. -/
theorem readI32M_run {data : List Nat} {pos : Nat} (h : pos + 4 ≤ data.length) :
    readI32M ⟨data, pos⟩ =
      Res.ok (i32ofLe ((data.drop pos).take 4), ⟨data, pos + 4⟩) := by
  show (readBytesM 4 >>= fun l => pure (i32ofLe l)) _ = _
  rw [bind_run _ (readBytesM_run (by decide) h)]
  rfl

/-- Claim C10. Triangle and SkinCoord record decoding is total over the
leading 4-byte tag: for every tag value the records decode without error
(given the rest of the record is present), the faces-front flag is set
exactly when the tag equals 1, the on-seam flag exactly when the tag equals
0x20 = 32; by contrast the Skin and Keyframe deserializers reject every tag
other than 0 and 1 with an UnknownVariant (InvalidData) failure. -/
theorem triangle_skincoord_tag_total (tagBytes rest : List Nat)
    (htag : tagBytes.length = 4) (hrest : 12 ≤ rest.length) :
    (∃ r2, Triangle.deserialize ⟨tagBytes ++ rest, 0⟩ =
      Res.ok (⟨decide (i32ofLe tagBytes = 1),
        [u32cast (i32ofLe (rest.take 4)),
         u32cast (i32ofLe ((rest.drop 4).take 4)),
         u32cast (i32ofLe ((rest.drop 8).take 4))]⟩, r2)) ∧
    (∃ r2, SkinCoord.deserialize ⟨tagBytes ++ rest, 0⟩ =
      Res.ok (⟨decide (i32ofLe tagBytes = 32),
        i32ofLe (rest.take 4),
        i32ofLe ((rest.drop 4).take 4)⟩, r2)) ∧
    (∀ sz, i32ofLe tagBytes ≠ 0 → i32ofLe tagBytes ≠ 1 →
      Skin.deserialize sz ⟨tagBytes ++ rest, 0⟩ = Res.err ErrKind.invalidData) ∧
    (∀ nv sc og, i32ofLe tagBytes ≠ 0 → i32ofLe tagBytes ≠ 1 →
      Keyframe.deserialize nv sc og ⟨tagBytes ++ rest, 0⟩ =
        Res.err ErrKind.invalidData) := by
  have hlen : (tagBytes ++ rest).length = 4 + rest.length := by
    simp [htag]
  have s0 : (tagBytes ++ rest).take 4 = tagBytes := by
    conv_lhs => rw [show (4 : Nat) = tagBytes.length from htag.symm]
    simp
  have sd4 : (tagBytes ++ rest).drop 4 = rest := by
    conv_lhs => rw [show (4 : Nat) = tagBytes.length from htag.symm]
    simp
  have sd8 : (tagBytes ++ rest).drop 8 = rest.drop 4 := by
    rw [show (8 : Nat) = tagBytes.length + 4 from by omega]
    simp [List.drop_append]
  have sd12 : (tagBytes ++ rest).drop 12 = rest.drop 8 := by
    rw [show (12 : Nat) = tagBytes.length + 8 from by omega]
    simp [List.drop_append]
  have h1 : readI32M ⟨tagBytes ++ rest, 0⟩ =
      Res.ok (i32ofLe tagBytes, ⟨tagBytes ++ rest, 4⟩) := by
    rw [readI32M_run (by omega)]
    simp [s0]
  have h2 : readI32M ⟨tagBytes ++ rest, 4⟩ =
      Res.ok (i32ofLe (rest.take 4), ⟨tagBytes ++ rest, 8⟩) := by
    rw [readI32M_run (by omega)]
    rw [sd4]
  have h3 : readI32M ⟨tagBytes ++ rest, 8⟩ =
      Res.ok (i32ofLe ((rest.drop 4).take 4), ⟨tagBytes ++ rest, 12⟩) := by
    rw [readI32M_run (by omega)]
    rw [sd8]
  have h4 : readI32M ⟨tagBytes ++ rest, 12⟩ =
      Res.ok (i32ofLe ((rest.drop 8).take 4), ⟨tagBytes ++ rest, 16⟩) := by
    rw [readI32M_run (by omega)]
    rw [sd12]
  refine ⟨⟨⟨tagBytes ++ rest, 16⟩, ?_⟩, ⟨⟨tagBytes ++ rest, 12⟩, ?_⟩, ?_, ?_⟩
  · simp only [Triangle.deserialize, bind_run _ h1, bind_run _ h2,
      bind_run _ h3, bind_run _ h4, pure_run]
  · simp only [SkinCoord.deserialize, bind_run _ h1, bind_run _ h2,
      bind_run _ h3, pure_run]
  · intro sz ht0 ht1
    simp only [Skin.deserialize, bind_run _ h1, ht0, ht1, if_false, failM]
  · intro nv sc og ht0 ht1
    simp only [Keyframe.deserialize, bind_run _ h1, ht0, ht1, if_false, failM]

/-- Witness for the tag-totality theorem at tag value 5 with a zeroed
record body. -/
theorem triangle_skincoord_tag_total_witness :
    Skin.deserialize 7 ⟨[5, 0, 0, 0, 0, 0, 0, 0, 0, 0, 0, 0, 0, 0, 0, 0], 0⟩ =
      Res.err ErrKind.invalidData ∧
    Triangle.deserialize ⟨[5, 0, 0, 0, 0, 0, 0, 0, 0, 0, 0, 0, 0, 0, 0, 0], 0⟩ =
      Res.ok (⟨false, [0, 0, 0]⟩, ⟨[5, 0, 0, 0, 0, 0, 0, 0, 0, 0, 0, 0, 0, 0, 0, 0], 16⟩) :=
  ⟨(triangle_skincoord_tag_total [5, 0, 0, 0] [0, 0, 0, 0, 0, 0, 0, 0, 0, 0, 0, 0]
      (by decide) (by decide)).2.2.1 7 (by decide) (by decide),
   by decide⟩

/-- The triangle at position k of the model (the source indexes the slice;
out of range gives the default, unreachable under the bound hypotheses). -/
def triAt (m : Mdl) (k : Nat) : Triangle := m.triangles.getD k ⟨false, []⟩

/-- The frame position referenced by corner i of triangle k. -/
def cornerPos (m : Mdl) (frame : Frame) (k i : Nat) : Vec3 :=
  frame.vertices.getD ((triAt m k).idx i) (0, 0, 0)

/-- The skin coordinate record referenced by corner i of triangle k. -/
def scAt (m : Mdl) (k i : Nat) : SkinCoord :=
  m.skinCoords.getD ((triAt m k).idx i) ⟨false, 0, 0⟩

/-- Each triangle contributes exactly 3 output vertices. -/
theorem triVertices_length (nrm : Vec3 → Vec3) (m : Mdl) (frame : Frame)
    (t : Triangle) : (triVertices nrm m frame t).length = 3 := rfl

/-- The vertex stream of a list of triangles has 3 entries per triangle. -/
theorem vertices_length (nrm : Vec3 → Vec3) (m : Mdl) (frame : Frame) :
    (m.vertices nrm frame).length = 3 * m.triangles.length := by
  show (m.triangles.flatMap (triVertices nrm m frame)).length = _
  induction m.triangles with
  | nil => rfl
  | cons a t ih =>
    simp only [List.flatMap_cons, List.length_append, ih, triVertices_length,
      List.length_cons]
    ring

/-- Entry 3k+i of the concatenation of 3-entry triangle blocks is entry i
of the block built for the triangle at position k. -/
theorem flatMap_tri_getElem (nrm : Vec3 → Vec3) (m : Mdl) (frame : Frame)
    (l : List Triangle) (k i : Nat) (hk : k < l.length) (hi : i < 3) :
    (l.flatMap (triVertices nrm m frame))[3 * k + i]? =
      (triVertices nrm m frame (l.getD k ⟨false, []⟩))[i]? := by
  induction l generalizing k with
  | nil => exact absurd hk (by simp)
  | cons a t ih =>
    simp only [List.flatMap_cons]
    cases k with
    | zero =>
      rw [List.getElem?_append, if_pos (by rw [triVertices_length]; omega)]
      simp
    | succ k2 =>
      rw [List.getElem?_append,
        if_neg (by rw [triVertices_length]; omega),
        triVertices_length]
      have h3 : 3 * (k2 + 1) + i - 3 = 3 * k2 + i := by omega
      rw [h3, ih k2 (by simpa using hk)]
      simp

/-- Entry 3k+i of the exploded vertex stream is entry i of the block built
for triangle k. -/
theorem vertices_getElem (nrm : Vec3 → Vec3) (m : Mdl) (frame : Frame)
    (k i : Nat) (hk : k < m.triangles.length) (hi : i < 3) :
    (m.vertices nrm frame)[3 * k + i]? =
      (triVertices nrm m frame (triAt m k))[i]? :=
  flatMap_tri_getElem nrm m frame m.triangles k i hk hi

/-- Claim C8. For every model and frame the assembler emits exactly 3 output
vertices per triangle, in triangle order with one entry per corner, and all
3 corners of triangle k carry the identical flat normal, the normalisation
(an arbitrary function nrm standing for cgmath normalize) of the cross
product (v0 - v1) x (v2 - v1) of the edge vectors taken from that frame's
corner positions. -/
theorem vertex_assembler_three_per_triangle_flat_normal
    (nrm : Vec3 → Vec3) (m : Mdl) (frame : Frame) :
    (m.vertices nrm frame).length = 3 * m.triangles.length ∧
    ∀ k, k < m.triangles.length → ∀ i, i < 3 →
      ((m.vertices nrm frame)[3 * k + i]?).map (fun v => (v.position, v.normal)) =
        some (cornerPos m frame k i,
          nrm (cross (vsub (cornerPos m frame k 0) (cornerPos m frame k 1))
                     (vsub (cornerPos m frame k 2) (cornerPos m frame k 1)))) := by
  refine ⟨vertices_length nrm m frame, ?_⟩
  intro k hk i hi
  rw [vertices_getElem nrm m frame k i hk hi]
  interval_cases i <;>
    simp [triVertices, cornerPos]

/-- Claim C7. For every model, frame and triangle corner, the texture
coordinate of the emitted vertex has t = (skin_t + 1/2) / skin_height, and
s carries the skin_width/2 seam offset exactly when the corner's skin
coordinate is on the seam and the triangle does not face front, and no
offset in every other case. -/
theorem vertex_assembler_seam_correction
    (nrm : Vec3 → Vec3) (m : Mdl) (frame : Frame) (k i : Nat)
    (hk : k < m.triangles.length) (hi : i < 3) :
    (¬(triAt m k).facesFront ∧ (scAt m k i).isOnSeam →
      ((m.vertices nrm frame)[3 * k + i]?).map Vertex1XYZ1N1UV.texcoord =
        some ((((scAt m k i).s : ℚ) + (m.skinWidth : ℚ) / 2 + 1 / 2) / (m.skinWidth : ℚ),
              (((scAt m k i).t : ℚ) + 1 / 2) / (m.skinHeight : ℚ))) ∧
    ((triAt m k).facesFront ∨ ¬(scAt m k i).isOnSeam →
      ((m.vertices nrm frame)[3 * k + i]?).map Vertex1XYZ1N1UV.texcoord =
        some ((((scAt m k i).s : ℚ) + 1 / 2) / (m.skinWidth : ℚ),
              (((scAt m k i).t : ℚ) + 1 / 2) / (m.skinHeight : ℚ))) := by
  have hg := vertices_getElem nrm m frame k i hk hi
  constructor
  · intro h
    rw [hg]
    interval_cases i <;>
      · simp only [triVertices, List.getElem?_cons_zero, List.getElem?_cons_succ,
          Option.map_some']
        split_ifs with hc
        · rfl
        · exact absurd h hc
  · intro h
    rw [hg]
    interval_cases i <;>
      · simp only [triVertices, List.getElem?_cons_zero, List.getElem?_cons_succ,
          Option.map_some']
        split_ifs with hc
        · rcases h with h | h
          · exact absurd h hc.1
          · exact absurd hc.2 h
        · rfl

/-- A concrete decoded model: one back-facing triangle over three vertices,
skin 4 x 2, corner 0 on the seam. -/
def mW : Mdl :=
  ⟨[], 4, 2, 3, [], [⟨true, 1, 2⟩, ⟨false, 3, 4⟩, ⟨false, 5, 6⟩],
   [⟨false, [0, 1, 2]⟩]⟩

/-- The same model with the triangle marked faces-front. -/
def mWfront : Mdl :=
  ⟨[], 4, 2, 3, [], [⟨true, 1, 2⟩, ⟨false, 3, 4⟩, ⟨false, 5, 6⟩],
   [⟨true, [0, 1, 2]⟩]⟩

/-- A concrete frame for the witness model. -/
def frameW : Frame :=
  ⟨[102], (0, 0, 0), (0, 0, 0), [(0, 0, 0), (1, 0, 0), (0, 1, 0)]⟩

/-- Witness for the seam-correction theorem: the on-seam corner of the
back-facing triangle gets s = (1 + 4/2 + 1/2)/4 = 7/8, while the same
corner of the faces-front triangle gets s = (1 + 1/2)/4 = 3/8. -/
theorem vertex_assembler_seam_correction_witness :
    ((mW.vertices id frameW)[0]?).map Vertex1XYZ1N1UV.texcoord =
      some (7 / 8, 5 / 4) ∧
    ((mWfront.vertices id frameW)[0]?).map Vertex1XYZ1N1UV.texcoord =
      some (3 / 8, 5 / 4) := by
  constructor
  · have h := (vertex_assembler_seam_correction id mW frameW 0 0
      (by decide) (by decide)).1 ⟨by decide, by decide⟩
    rw [h]
    norm_num [scAt, triAt, Triangle.idx, mW]
  · have h := (vertex_assembler_seam_correction id mWfront frameW 0 0
      (by decide) (by decide)).2 (Or.inl (by decide))
    rw [h]
    norm_num [scAt, triAt, Triangle.idx, mWfront]

/-- Witness for the flat-normal theorem: the single triangle of the witness
model yields 3 output vertices whose shared normal is the cross product
((0,0,0)-(1,0,0)) x ((0,1,0)-(1,0,0)) = (0,0,-1) (nrm instantiated with the
identity). -/
theorem vertex_assembler_three_per_triangle_flat_normal_witness :
    (mW.vertices id frameW).length = 3 ∧
    ((mW.vertices id frameW)[0]?).map (fun v => (v.position, v.normal)) =
      some (((0, 0, 0) : Vec3), ((0, 0, -1) : Vec3)) ∧
    ((mW.vertices id frameW)[1]?).map (fun v => (v.position, v.normal)) =
      some (((1, 0, 0) : Vec3), ((0, 0, -1) : Vec3)) ∧
    ((mW.vertices id frameW)[2]?).map (fun v => (v.position, v.normal)) =
      some (((0, 1, 0) : Vec3), ((0, 0, -1) : Vec3)) := by
  have hlen := (vertex_assembler_three_per_triangle_flat_normal id mW frameW).1
  have h0 := (vertex_assembler_three_per_triangle_flat_normal id mW frameW).2
    0 (by decide) 0 (by decide)
  have h1 := (vertex_assembler_three_per_triangle_flat_normal id mW frameW).2
    0 (by decide) 1 (by decide)
  have h2 := (vertex_assembler_three_per_triangle_flat_normal id mW frameW).2
    0 (by decide) 2 (by decide)
  refine ⟨by rw [hlen]; rfl, ?_, ?_, ?_⟩
  · rw [show (0 : Nat) = 3 * 0 + 0 from rfl, h0]
    norm_num [cornerPos, triAt, Triangle.idx, mW, frameW, cross, vsub]
  · rw [show (1 : Nat) = 3 * 0 + 1 from rfl, h1]
    norm_num [cornerPos, triAt, Triangle.idx, mW, frameW, cross, vsub]
  · rw [show (2 : Nat) = 3 * 0 + 2 from rfl, h2]
    norm_num [cornerPos, triAt, Triangle.idx, mW, frameW, cross, vsub]

deriving instance DecidableEq for Except

/-- Directory lookup on an empty directory misses. -/
theorem dirLookup_nil (k : List Nat) : dirLookup [] k = none := rfl

/-- Directory lookup steps through a cons cell. -/
theorem dirLookup_cons (a : List Nat) (w : Int × Int) (d : Dir) (k : List Nat) :
    dirLookup ((a, w) :: d) k = if a = k then some w else dirLookup d k := by
  unfold dirLookup
  rw [List.find?_cons]
  by_cases h : a = k
  · simp [h]
  · rw [show (a == k) = false from by simpa using h]
    simp [h]

/-- Inserting a key that misses the directory appends the new mapping. -/
theorem dirInsert_fresh {d : Dir} {k : List Nat} {v : Int × Int}
    (h : dirLookup d k = none) : dirInsert d k v = d ++ [(k, v)] := by
  have hf : d.find? (fun e => e.1 == k) = none := by
    unfold dirLookup at h
    exact Option.map_eq_none'.mp h
  have hany : (d.any (fun e => e.1 == k)) = false := by
    rw [List.any_eq_false]
    intro e he
    simpa using List.find?_eq_none.mp hf e he
  unfold dirInsert
  rw [if_neg (by simp [hany])]

/-- Lookup in an appended directory whose left part misses the key. -/
theorem dirLookup_append_left_none {d1 : Dir} {k : List Nat}
    (h : dirLookup d1 k = none) (d2 : Dir) :
    dirLookup (d1 ++ d2) k = dirLookup d2 k := by
  induction d1 with
  | nil => rfl
  | cons a t ih =>
    obtain ⟨an, aw⟩ := a
    rw [List.cons_append, dirLookup_cons]
    rw [dirLookup_cons] at h
    by_cases hk : an = k
    · rw [if_pos hk] at h
      exact absurd h (by simp)
    · rw [if_neg hk] at h
      rw [if_neg hk]
      exact ih h

/-- Claim C5. Pak::read on a name present in the directory returns exactly
the size on-disk bytes starting at the stored offset (for an entry whose
i32 fields are non-negative and whose range lies in the file), leaving the
directory and backing bytes unchanged and moving only the cursor; read on
an absent name fails with NotFound and leaves the whole archive untouched. -/
theorem pak_read_hit_exact_slice_miss_not_found (p : Pak) (name : List Nat) :
    (∀ off size : Int, dirLookup p.directory name = some (off, size) →
      0 ≤ off → off < 2 ^ 31 → 0 ≤ size → size < 2 ^ 31 →
      off.toNat + size.toNat ≤ p.data.length →
      p.read name = (Res.ok ((p.data.drop off.toNat).take size.toNat),
        ⟨p.data, off.toNat + size.toNat, p.directory⟩)) ∧
    (dirLookup p.directory name = none →
      p.read name = (Res.err ErrKind.notFound, p)) := by
  constructor
  · intro off size hlook h0 h1 h2 h3 hext
    have hco : u64cast off = off.toNat := by
      unfold u64cast
      rw [Int.emod_eq_of_lt h0 (by omega)]
    have hcs : usizeCast size = size.toNat := by
      unfold usizeCast
      rw [Int.emod_eq_of_lt h2 (by omega)]
    simp only [Pak.read, hlook]
    rw [hco, hcs]
    rw [if_neg (by omega)]
    unfold fileReadExactAt
    by_cases hz : size.toNat = 0
    · rw [if_pos hz]
      simp [hz]
    · rw [if_neg hz, if_pos (by omega)]
  · intro h
    simp only [Pak.read, h]

/-- A concrete opened archive for the read witness. -/
def pakW : Pak := ⟨[10, 11, 12, 13, 14], 0, [([97], (1, 3))]⟩

/-- Witness for the read theorem: the entry (1, 3) of a 5-byte file returns
bytes 1..3 and the absent name misses. -/
theorem pak_read_hit_exact_slice_miss_not_found_witness :
    pakW.read [97] = (Res.ok [11, 12, 13], ⟨pakW.data, 4, pakW.directory⟩) ∧
    pakW.read [98] = (Res.err ErrKind.notFound, pakW) := by
  constructor
  · have h := (pak_read_hit_exact_slice_miss_not_found pakW [97]).1 1 3 (by decide)
      (by decide) (by decide) (by decide) (by decide) (by decide)
    rw [h]
    decide
  · exact (pak_read_hit_exact_slice_miss_not_found pakW [98]).2 (by decide)

/-- Amended claim C9. The archive open routine performs no extent
validation at all. A directory entry whose (offset, size) range does not
lie within the file surfaces at read time, and never as a FormatError: for
an entry with a non-negative, nonzero i32 size the read fails with the
typed UnexpectedEof io error (an IOFailure in the spec taxonomy) without
panicking, while an entry with a negative i32 size panics deterministically
with a capacity overflow in the buffer allocation, before any seek or
read. -/
theorem pak_read_out_of_extent_eof_or_capacity_panic (p : Pak)
    (name : List Nat) (off size : Int)
    (hlook : dirLookup p.directory name = some (off, size)) :
    (0 ≤ size → size.toNat ≠ 0 → size < 2 ^ 31 →
      p.data.length < u64cast off + size.toNat →
      p.read name =
        (Res.err ErrKind.unexpectedEof, ⟨p.data, u64cast off, p.directory⟩)) ∧
    (size < 0 → -(2 ^ 31) ≤ size → (p.read name).1 = Res.panic) := by
  constructor
  · intro h0 hnz hsz hext
    have hcs : usizeCast size = size.toNat := by
      unfold usizeCast
      rw [Int.emod_eq_of_lt h0 (by omega)]
    simp only [Pak.read, hlook]
    rw [hcs]
    rw [if_neg (by omega)]
    unfold fileReadExactAt
    rw [if_neg hnz, if_neg (by omega)]
  · intro hneg hlo
    have hcap : 2 ^ 63 ≤ usizeCast size := by
      unfold usizeCast
      have hm : size % 2 ^ 64 = size + 2 ^ 64 := by omega
      rw [hm]
      omega
    simp only [Pak.read, hlook]
    rw [if_pos hcap]

/-- Witness for the out-of-extent read theorem: a 3-byte file with a
directory entry of size 100 fails with UnexpectedEof, and the same file
with an entry of i32 size -1 panics at the buffer allocation. -/
theorem pak_read_out_of_extent_eof_or_capacity_panic_witness :
    Pak.read ⟨[1, 2, 3], 0, [([97], (0, 100))]⟩ [97] =
      (Res.err ErrKind.unexpectedEof, ⟨[1, 2, 3], 0, [([97], (0, 100))]⟩) ∧
    (Pak.read ⟨[1, 2, 3], 0, [([97], (0, -1))]⟩ [97]).1 = Res.panic := by
  constructor
  · exact (pak_read_out_of_extent_eof_or_capacity_panic
      ⟨[1, 2, 3], 0, [([97], (0, 100))]⟩ [97] 0 100 (by decide)).1
      (by decide) (by decide) (by decide) (by decide)
  · exact (pak_read_out_of_extent_eof_or_capacity_panic
      ⟨[1, 2, 3], 0, [([97], (0, -1))]⟩ [97] 0 (-1) (by decide)).2
      (by decide) (by decide)

/-- The 64-byte record of directory slot i when the loop starts at offset
off: the loop seeks to off + 64 i (cast through u64 as the source does). -/
def recAt (data : List Nat) (off : Int) (i : Nat) : List Nat :=
  record data (u64cast (off + 64 * i))

/-- The directory mapping parsed from slot i. -/
def entryOf (data : List Nat) (off : Int) (i : Nat) : List Nat × (Int × Int) :=
  (entryName (recAt data off i),
   (entryOffset (recAt data off i), entrySize (recAt data off i)))

/-- Lookup of the i-th name in a directory built from slots 0..n-1 with
pairwise distinct names finds the i-th value. -/
theorem dirLookup_map_range :
    ∀ (n : Nat) (f : Nat → List Nat) (v : Nat → Int × Int) (i : Nat), i < n →
    ((List.range n).map f).Nodup →
    dirLookup ((List.range n).map (fun j => (f j, v j))) (f i) = some (v i) := by
  intro n
  induction n with
  | zero =>
    intro f v i hi
    exact absurd hi (by omega)
  | succ n ih =>
    intro f v i hi hnd
    rw [List.range_succ_eq_map, List.map_cons, List.map_map] at hnd ⊢
    obtain ⟨hm, hnd2⟩ := List.nodup_cons.mp hnd
    rw [dirLookup_cons]
    cases i with
    | zero =>
      rw [if_pos rfl]
    | succ j =>
      have hne : f 0 ≠ f (j + 1) := by
        intro he
        exact hm (by
          rw [he]
          exact List.mem_map.mpr ⟨j, List.mem_range.mpr (by omega), rfl⟩)
      rw [if_neg hne]
      exact ih (fun j => f (j + 1)) (fun j => v (j + 1)) j (by omega) hnd2

/-- Shifting the loop offset by one record renumbers the slots. -/
theorem recAt_shift (data : List Nat) (off : Int) (i : Nat) :
    recAt data (off + 64) i = recAt data off (i + 1) := by
  unfold recAt
  congr 2
  push_cast
  ring

/-- A successful directory loop of n records over fresh, pairwise-distinct
names appends exactly the n parsed mappings to the accumulator. -/
theorem readDirEntries_ok_eq (data : List Nat) :
    ∀ (n : Nat) (off : Int) (dir dir2 : Dir),
    readDirEntries data off n dir = Except.ok dir2 →
    ((List.range n).map (fun i => entryName (recAt data off i))).Nodup →
    (∀ i, i < n → dirLookup dir (entryName (recAt data off i)) = none) →
    dir2 = dir ++ (List.range n).map (entryOf data off) := by
  intro n
  induction n with
  | zero =>
    intro off dir dir2 h hnd hfresh
    unfold readDirEntries at h
    cases h
    simp
  | succ n ih =>
    intro off dir dir2 h hnd hfresh
    unfold readDirEntries at h
    split at h
    · exact absurd h (by simp)
    · rename_i buf hfr
      have hbuf : buf = record data (u64cast off) := by
        unfold fileReadExactAt at hfr
        rw [if_neg (by decide)] at hfr
        by_cases hc : u64cast off + 64 ≤ data.length
        · rw [if_pos hc] at hfr
          unfold record
          exact (Option.some.injEq _ _).mp hfr.symm
        · rw [if_neg hc] at hfr
          cases hfr
      have hzero : recAt data off 0 = record data (u64cast off) := by
        unfold recAt
        congr 2
        push_cast
        ring
      rw [hbuf, ← hzero] at h
      rw [List.range_succ_eq_map, List.map_cons, List.map_map] at hnd
      obtain ⟨hm, hnd2⟩ := List.nodup_cons.mp hnd
      have hshiftf :
          ((List.range n).map ((fun i => entryName (recAt data off i)) ∘ (· + 1))) =
          (List.range n).map (fun i => entryName (recAt data (off + 64) i)) := by
        refine List.map_congr_left ?_
        intro i hi
        simp [Function.comp, recAt_shift]
      rw [hshiftf] at hnd2 hm
      have hfresh0 := hfresh 0 (by omega)
      have hins : dirInsert dir (entryName (recAt data off 0))
          (entryOffset (recAt data off 0), entrySize (recAt data off 0)) =
          dir ++ [entryOf data off 0] :=
        dirInsert_fresh hfresh0
      rw [hins] at h
      have hfresh2 : ∀ i, i < n →
          dirLookup (dir ++ [entryOf data off 0])
            (entryName (recAt data (off + 64) i)) = none := by
        intro i hi
        rw [dirLookup_append_left_none
          (by rw [recAt_shift]; exact hfresh (i + 1) (by omega))]
        unfold entryOf
        rw [dirLookup_cons]
        rw [if_neg (by
          intro he
          exact hm (by
            rw [he]
            exact List.mem_map.mpr ⟨i, List.mem_range.mpr hi, rfl⟩))]
        rfl
      have hrec := ih (off + 64) (dir ++ [entryOf data off 0]) dir2 h hnd2 hfresh2
      rw [hrec, List.range_succ_eq_map, List.map_cons, List.map_map,
        List.append_assoc]
      congr 1
      rw [List.singleton_append]
      congr 1
      refine List.map_congr_left ?_
      intro i hi
      unfold entryOf
      simp [Function.comp, recAt_shift]

/-- Amended claim C6. For an archive opened successfully whose N directory
records carry pairwise distinct names, the directory contains exactly N
mappings and each maps the record's NUL-truncated name to the offset and
size fields of its own 64-byte record; with duplicate names the later
record's pair overwrites the earlier one's, so the directory holds one
mapping per distinct name (fewer than N), not N mappings. -/
theorem pak_open_distinct_names_directory (data : List Nat) (pak : Pak)
    (hopen : Pak.open data = Except.ok pak)
    (hnd : ((List.range (pakNumFiles data)).map (fun i =>
      entryName (recAt data (pakDirOffset data) i))).Nodup) :
    pak.directory.length = pakNumFiles data ∧
    ∀ i, i < pakNumFiles data →
      dirLookup pak.directory (entryName (recAt data (pakDirOffset data) i)) =
        some (entryOffset (recAt data (pakDirOffset data) i),
              entrySize (recAt data (pakDirOffset data) i)) := by
  unfold Pak.open at hopen
  split at hopen
  · cases hopen
  · rename_i header hdr
    split at hopen
    · dsimp only at hopen
      split at hopen
      · cases hopen
      · rename_i dir hde
        cases hopen
        have heq := readDirEntries_ok_eq data (pakNumFiles data)
          (pakDirOffset data) [] dir hde hnd (fun i _ => rfl)
        constructor
        · show dir.length = _
          rw [heq]
          simp
        · intro i hi
          show dirLookup dir _ = _
          rw [heq, List.nil_append]
          exact dirLookup_map_range (pakNumFiles data)
            (fun i => entryName (recAt data (pakDirOffset data) i))
            (fun i => (entryOffset (recAt data (pakDirOffset data) i),
              entrySize (recAt data (pakDirOffset data) i))) i hi hnd
    · cases hopen

/-- An archive whose header declares 2 directory records (directory byte
length 128) but whose two records both carry the name "a": the first maps
to (0, 1), the second to (4, 2). -/
def dupData : List Nat :=
  [80, 65, 67, 75, 12, 0, 0, 0, 128, 0, 0, 0] ++
  (97 :: List.replicate 55 0 ++ [0, 0, 0, 0, 1, 0, 0, 0]) ++
  (97 :: List.replicate 55 0 ++ [4, 0, 0, 0, 2, 0, 0, 0])

/-- Counterexample to claim C6 as stated: this archive declares N = 2
directory entries, yet the directory Pak::open builds contains exactly one
mapping, not two; the later duplicate record overwrote the earlier one
(name "a" maps to the second record's (4, 2)). -/
theorem pak_open_duplicate_names_collapse :
    pakNumFiles dupData = 2 ∧
    (Pak.open dupData).map (fun p => p.directory) =
      Except.ok [([97], (4, 2))] ∧
    (Pak.open dupData).map (fun p => p.directory.length) = Except.ok 1 := by
  decide

/-- The same archive with distinct record names "a" and "b". -/
def okData : List Nat :=
  [80, 65, 67, 75, 12, 0, 0, 0, 128, 0, 0, 0] ++
  (97 :: List.replicate 55 0 ++ [0, 0, 0, 0, 1, 0, 0, 0]) ++
  (98 :: List.replicate 55 0 ++ [4, 0, 0, 0, 2, 0, 0, 0])

/-- The archive value Pak::open builds for the distinct-names archive. -/
def okPak : Pak := ⟨okData, 140, [([97], (0, 1)), ([98], (4, 2))]⟩

/-- Witness for the amended directory theorem on the distinct-names
archive: both records appear, each with the pair of its own record. -/
theorem pak_open_distinct_names_directory_witness :
    okPak.directory.length = 2 ∧
    dirLookup okPak.directory [97] = some (0, 1) ∧
    dirLookup okPak.directory [98] = some (4, 2) := by
  have h := pak_open_distinct_names_directory okData okPak (by decide) (by decide)
  refine ⟨?_, ?_, ?_⟩
  · rw [h.1]
    decide
  · rw [show ([97] : List Nat) =
      entryName (recAt okData (pakDirOffset okData) 0) from by decide]
    rw [h.2 0 (by decide)]
    decide
  · rw [show ([98] : List Nat) =
      entryName (recAt okData (pakDirOffset okData) 1) from by decide]
    rw [h.2 1 (by decide)]
    decide

/-- An archive with one directory record "a" whose (offset, size) = (0, 1000)
range extends far past the 76-byte file. -/
def overData : List Nat :=
  [80, 65, 67, 75, 12, 0, 0, 0, 64, 0, 0, 0] ++
  (97 :: List.replicate 55 0 ++ [0, 0, 0, 0, 232, 3, 0, 0])

/-- Counterexample to claim C9 as stated: the out-of-extent entry does not
surface as a FormatError (InvalidData) from open or from read: open accepts
the archive without any extent validation, and read of the entry fails with
the UnexpectedEof io error, a different error kind. -/
theorem pak_extent_violation_not_format_error :
    (Pak.open overData).map (fun p => (p.read [97]).1) =
      Except.ok (Res.err ErrKind.unexpectedEof) ∧
    ErrKind.unexpectedEof ≠ ErrKind.invalidData := by
  decide
